import Mathlib

/-!
# Dive picture model (`qt-ui/divepicturewidget.cpp`)

A shallow embedding of the picture model of the dive log: the image loader
`SHashedImage`, the thumbnail function `scaleImages` with its function-static
cache, the downloader slot `ImageDownloader::saveImage`, and the item model
`DivePictureModel` (`updateDivePictures`, `rowCount`, `columnCount`, `data`,
`removePicture`).

Conventions of the embedding.

* C `int` values are `Int`; none of the arithmetic below can leave the 32-bit
  range for picture lists and pixel sizes that fit in memory.
* Everything the file calls but does not define (file system, URL parsing,
  hash registry, SHA-1, icon metrics, the dive module) is a field of `Env`.
  A read of the outside world takes the log of the effects performed so far,
  so its answer may change after a write, a registration, or a scheduled task.
* Effects on the outside world (loads, scheduled background tasks, model
  signals, file writes, calls into the dive module) are appended to a log.
* `QtConcurrent::blockingMapped` is embedded as the in-order sequential map; it
  returns its results in the order of its input.
* A `struct picture *` is embedded as the picture record it points to; a write
  through the pointer yields the updated record.
-/

namespace Subsurface

/-! ## Toolkit values -/

/-- A byte of a `QByteArray`. -/
abbrev Byte := Fin 256

/-- A `QByteArray`. -/
abbrev QByteArray := List Byte

/-- One lowercase hexadecimal digit, for a value below 16. -/
def hexDigit (n : Nat) : Char :=
  if n < 10 then Char.ofNat (48 + n) else Char.ofNat (87 + n)

/-- The characters of `QByteArray::toHex`: two lowercase digits per byte, high
nibble first. -/
def toHexChars : QByteArray → List Char
  | [] => []
  | b :: bs => hexDigit (b.val / 16) :: hexDigit (b.val % 16) :: toHexChars bs

/-- The text of `QByteArray::toHex`. -/
def toHex (bytes : QByteArray) : String :=
  String.mk (toHexChars bytes)

/-- A `QImage`: the null image (no pixel data, size 0 x 0), or pixel data of a
given size. `content` names the picture the pixels show. -/
inductive QImage where
  | null
  | pixels (width height : Int) (content : String)
deriving DecidableEq, Repr

/-- The default-constructed `QImage()` is the null image. -/
instance : Inhabited QImage := ⟨QImage.null⟩

/-- Toolkit `QImage::isNull`. -/
def QImage.isNull : QImage → Bool
  | QImage.null => true
  | QImage.pixels _ _ _ => false

/-- Toolkit `QImage::width`. -/
def QImage.width : QImage → Int
  | QImage.null => 0
  | QImage.pixels w _ _ => w

/-- Toolkit `QImage::height`. -/
def QImage.height : QImage → Int
  | QImage.null => 0
  | QImage.pixels _ h _ => h

/-- A `QSize`. -/
structure QSize where
  wd : Int
  ht : Int
deriving DecidableEq, Repr

/-- Toolkit `QSize::scaled(s, Qt::KeepAspectRatio)`: the candidate width
`rw = s.ht * wd / ht` (64-bit, truncating) is used with the full height when it
fits, otherwise the full width with the height `s.wd * ht / wd`. -/
def QSize.scaled (sz s : QSize) : QSize :=
  if sz.wd = 0 ∨ sz.ht = 0 then s
  else
    let rw := Int.tdiv (s.ht * sz.wd) sz.ht
    if rw ≤ s.wd then ⟨rw, s.ht⟩
    else ⟨s.wd, Int.tdiv (s.wd * sz.ht) sz.wd⟩

/-- Toolkit `QImage::scaled(w, h, Qt::KeepAspectRatio)`: a null image or
an empty target size gives the null image; otherwise the image is resampled to
its own size scaled into `w x h`, each side at least one pixel. -/
def QImage.scaled (img : QImage) (w h : Int) : QImage :=
  match img with
  | QImage.null => QImage.null
  | QImage.pixels wd ht c =>
    if w < 1 ∨ h < 1 then QImage.null
    else
      let newSize := QSize.scaled ⟨wd, ht⟩ ⟨w, h⟩
      QImage.pixels (max newSize.wd 1) (max newSize.ht 1) c

/-- A `QHash<QString, T>` as its list of entries, one per key. -/
structure QHash (α : Type) where
  entries : List (String × α)
deriving DecidableEq, Repr

/-- Replace the value stored under `k`, or add the entry when `k` is new. -/
def insertEntry {α : Type} (k : String) (v : α) : List (String × α) → List (String × α)
  | [] => [(k, v)]
  | e :: es => if e.1 = k then (k, v) :: es else e :: insertEntry k v es

/-- The value stored under `k`, if any. -/
def lookupEntry {α : Type} (k : String) : List (String × α) → Option α
  | [] => none
  | e :: es => if e.1 = k then some e.2 else lookupEntry k es

/-- The empty hash. -/
def QHash.empty {α : Type} : QHash α := ⟨[]⟩

/-- Toolkit `QHash::contains`. -/
def QHash.contains {α : Type} (m : QHash α) (k : String) : Bool :=
  (lookupEntry k m.entries).isSome

/-- Toolkit `QHash::value`: the stored value, or a default-constructed one. -/
def QHash.value {α : Type} [Inhabited α] (m : QHash α) (k : String) : α :=
  (lookupEntry k m.entries).getD default

/-- Toolkit `QHash::insert`. -/
def QHash.insert {α : Type} (m : QHash α) (k : String) (v : α) : QHash α :=
  ⟨insertEntry k v m.entries⟩

/-- An assignment through `operator[]`: `m[k].field = ...`, which first adds a
default-constructed value when `k` is new. -/
def QHash.modify {α : Type} [Inhabited α] (m : QHash α) (k : String) (f : α → α) : QHash α :=
  m.insert k (f (m.value k))

/-- The keys of the hash, one per entry, before the container orders them. -/
def QHash.rawKeys {α : Type} (m : QHash α) : List String :=
  m.entries.map Prod.fst

/-- A `QVariant` holding one of the values the model returns. -/
inductive QVariant where
  | invalid
  | ofString (s : String)
  | ofImage (img : QImage)
  | ofInt (i : Int)
deriving DecidableEq, Repr

/-- A `QModelIndex`; `hasModel` tells whether its model pointer is set. -/
structure QModelIndex where
  row : Int
  column : Int
  hasModel : Bool
deriving DecidableEq, Repr

/-- Toolkit `QModelIndex::isValid`. -/
def QModelIndex.isValid (index : QModelIndex) : Bool :=
  decide (0 ≤ index.row) && decide (0 ≤ index.column) && index.hasModel

/-- Role `Qt::DisplayRole`. -/
def Qt.DisplayRole : Int := 0

/-- Role `Qt::DecorationRole`. -/
def Qt.DecorationRole : Int := 1

/-- Role `Qt::ToolTipRole`. -/
def Qt.ToolTipRole : Int := 3

/-- Role `Qt::DisplayPropertyRole`. -/
def Qt.DisplayPropertyRole : Int := 27

/-- Role `Qt::UserRole`. -/
def Qt.UserRole : Int := 256

/-! ## Dive data (owned by the dive module) -/

/-- A `struct picture`: file name, content hash as hex text (`NULL` is `none`),
and `offset.seconds`. -/
structure picture where
  filename : String
  hash : Option String
  offset : Int
deriving DecidableEq, Repr

/-- A `struct dive`, reduced to its picture list. -/
structure dive where
  picture_list : List picture
deriving DecidableEq, Repr

/-- Modelled from the spec: `dive_get_picture_count` of the dive module, which
is not part of this file; it is the picture count of the dive, the number of
pictures that `FOR_EACH_PICTURE_NON_PTR` walks over. -/
def dive_get_picture_count (d : dive) : Int :=
  (d.picture_list.length : Int)

/-! ## Effects and environment -/

/-- An effect on the world outside the model, in the order performed. -/
inductive Event where
  | load (path : String)
  | runUpdateHash (p : picture)
  | runLoadPicuture (p : picture)
  | beginRemoveRows (first last : Int)
  | endRemoveRows
  | beginInsertRows (first last : Int)
  | endInsertRows
  | mkpath (path : String)
  | writeRawData (file : String) (bytes : QByteArray)
  | add_hash (file : String) (hash : QByteArray)
  | learnHash (p : picture) (hash : QByteArray)
  | deleteLater
  | dive_remove_picture (filename : String)
  | copy_dive
  | mark_divelist_changed (changed : Bool)
deriving DecidableEq, Repr

/-- The events that store something: the file write and the two hash
registrations of `saveImage`. -/
def Event.isStore : Event → Bool
  | Event.writeRawData _ _ => true
  | Event.add_hash _ _ => true
  | Event.learnHash _ _ => true
  | _ => false

/-- The collaborators of the file. Functions with a `List Event` argument read
the outside world after the effects of that log. -/
structure Env where
  /-- Result of `QUrl::fromUserInput(name).isLocalFile()`. -/
  isLocalFile : String → Bool
  /-- Result of `QUrl::fromUserInput(name).toLocalFile()`. -/
  toLocalFile : String → String
  /-- The image `QImage::load(path)` leaves behind: null when loading fails. -/
  load : List Event → String → QImage
  /-- Result of `fileFromHash(hash)`. -/
  fileFromHash : List Event → Option String → String
  /-- Result of `hashFile(path)`. -/
  hashFile : List Event → String → QByteArray
  /-- Value of `defaultIconMetrics().sz_pic`. -/
  sz_pic : Int
  /-- The order in which `stringPixmapCache.keys()` lists the keys. -/
  keyOrder : List String → List String
  /-- Result of `QFileInfo(name).fileName()`. -/
  fileName : String → String
  /-- Result of `QFileInfo(name).filePath()`. -/
  filePath : String → String
  /-- The `QCryptographicHash::Sha1` digest of the data. -/
  sha1 : QByteArray → QByteArray
  /-- Value of `QStandardPaths::standardLocations(CacheLocation).first()`. -/
  cacheLocation : String
  /-- Result of `QDir(path).exists()`. -/
  dirExists : List Event → String → Bool
  /-- Whether `QFile(file).open(QIODevice::WriteOnly)` succeeds. -/
  openWriteOnly : List Event → String → Bool
  /-- The write of `learnHash(picture, hash)` through its picture pointer, seen
  from the displayed dive whose list holds the picture. -/
  learnHash : picture → QByteArray → dive → dive
  /-- The effect of `dive_remove_picture(filename)` on the current dive. -/
  dive_remove_picture : String → dive → dive

/-! ## The image loader -/

/-- What constructing a `SHashedImage` leaves behind: the image, the picture
record after the write to `picture->hash`, and the log. -/
structure SHashedImageResult where
  image : QImage
  picture : picture
  log : List Event
deriving DecidableEq, Repr

/-- Constructor `SHashedImage::SHashedImage(struct picture *picture)`. -/
def SHashedImage (env : Env) (pic : picture) (log : List Event) : SHashedImageResult :=
  let path := env.toLocalFile pic.filename
  let first : QImage × List Event :=
    if env.isLocalFile pic.filename then (env.load log path, log ++ [Event.load path])
    else (QImage.null, log)
  if first.1.isNull then
    let hashed := env.fileFromHash first.2 pic.hash
    let img := env.load first.2 hashed
    let log2 := first.2 ++ [Event.load hashed]
    if !img.isNull then
      { image := img, picture := pic, log := log2 ++ [Event.runUpdateHash pic] }
    else
      { image := img, picture := pic, log := log2 ++ [Event.runLoadPicuture pic] }
  else
    let hash := env.hashFile first.2 path
    { image := first.1, picture := { pic with hash := some (toHex hash) }, log := first.2 }

/-- An `SPixmap`: `QPair<picturepointer, QImage>`. -/
abbrev SPixmap := picture × QImage

/-- What a call of `scaleImages` leaves behind: the returned pair, the static
`cache`, and the log. -/
structure ScaleResult where
  ret : SPixmap
  cache : QHash QImage
  log : List Event
deriving DecidableEq, Repr

/-- Function `scaleImages(picturepointer picture)`, with its function-static `cache`
passed in and out. The `cache.insert` is not under the `if`. -/
def scaleImages (env : Env) (pic : picture) (cache : QHash QImage) (log : List Event) :
    ScaleResult :=
  if cache.contains pic.filename && !(cache.value pic.filename).isNull then
    { ret := (pic, cache.value pic.filename), cache := cache, log := log }
  else
    let dim := env.sz_pic
    let loaded := SHashedImage env pic log
    let p := if !loaded.image.isNull then loaded.image.scaled dim dim else loaded.image
    { ret := (loaded.picture, p), cache := cache.insert pic.filename p, log := loaded.log }

/-- Whether the static cache holds a non-null image for the file name: the
test at the head of `scaleImages`. -/
def cacheServes (cache : QHash QImage) (name : String) : Bool :=
  cache.contains name && !(cache.value name).isNull

/-- Call `QtConcurrent::blockingMapped(pictures, scaleImages)`, run in list order. -/
def blockingMapped (env : Env) : List picture → QHash QImage → List Event →
    List SPixmap × QHash QImage × List Event
  | [], cache, log => ([], cache, log)
  | p :: ps, cache, log =>
    let r := scaleImages env p cache log
    let rest := blockingMapped env ps r.cache r.log
    (r.ret :: rest.1, rest.2.1, rest.2.2)

/-- Any sequence of later calls of `scaleImages`, each in its own environment,
threading the static cache and the log. -/
def scaleImagesCalls : List (Env × picture) → QHash QImage → List Event →
    QHash QImage × List Event
  | [], cache, log => (cache, log)
  | call :: calls, cache, log =>
    let r := scaleImages call.1 call.2 cache log
    scaleImagesCalls calls r.cache r.log

/-- The pairs that a sequence of later calls of `scaleImages` returns, in the
order of the calls. -/
def scaleImagesReturns : List (Env × picture) → QHash QImage → List Event → List SPixmap
  | [], _, _ => []
  | call :: calls, cache, log =>
    let r := scaleImages call.1 call.2 cache log
    r.ret :: scaleImagesReturns calls r.cache r.log

/-! ## The item model -/

/-- A `PhotoHelper`: the value type of `stringPixmapCache`. -/
structure PhotoHelper where
  image : QImage
  offsetSeconds : Int
deriving DecidableEq, Repr

/-- A default-constructed `PhotoHelper`. -/
instance : Inhabited PhotoHelper := ⟨⟨QImage.null, 0⟩⟩

/-- The program state the model works on: the globals of the dive module
(`dive_table.nr`, the dive `current_dive` points to, `displayed_dive`), the
members of `DivePictureModel`, the static cache of `scaleImages`, the log. -/
structure World where
  dive_table_nr : Int
  current_dive : dive
  displayed_dive : dive
  numberOfPictures : Int
  stringPixmapCache : QHash PhotoHelper
  cache : QHash QImage
  log : List Event
deriving DecidableEq, Repr

/-- The first loop of `updateDivePictures`: one `offsetSeconds` per picture. -/
def storeOffsets (pictures : List picture) (m : QHash PhotoHelper) : QHash PhotoHelper :=
  pictures.foldl (fun acc p => acc.modify p.filename (fun h => { h with offsetSeconds := p.offset })) m

/-- The second loop of `updateDivePictures`: one `image` per returned pair. -/
def storeImages (list : List SPixmap) (m : QHash PhotoHelper) : QHash PhotoHelper :=
  list.foldl (fun acc px => acc.modify px.1.filename (fun h => { h with image := px.2 })) m

/-- Method `DivePictureModel::updateDivePictures()`. The displayed dive ends
with its picture records as the calls of `scaleImages` left them. -/
def updateDivePictures (env : Env) (w : World) : World :=
  let w1 : World :=
    if w.numberOfPictures ≠ 0 then
      { w with
        log := w.log ++ [Event.beginRemoveRows 0 (w.numberOfPictures - 1), Event.endRemoveRows],
        numberOfPictures := 0 }
    else w
  let n : Int := if w1.dive_table_nr = 0 then 0 else dive_get_picture_count w1.displayed_dive
  let w2 : World := { w1 with numberOfPictures := n }
  if n = 0 then w2
  else
    let pictures := w2.displayed_dive.picture_list
    let offsets := storeOffsets pictures QHash.empty
    let mapped := blockingMapped env pictures w2.cache w2.log
    { w2 with
      stringPixmapCache := storeImages mapped.1 offsets,
      cache := mapped.2.1,
      displayed_dive := { picture_list := mapped.1.map Prod.fst },
      log := mapped.2.2 ++ [Event.beginInsertRows 0 (n - 1), Event.endInsertRows] }

/-- Method `DivePictureModel::rowCount`. -/
def rowCount (w : World) : Int :=
  w.numberOfPictures

/-- Method `DivePictureModel::columnCount`. -/
def columnCount (_parent : QModelIndex) : Int :=
  2

/-- The list `stringPixmapCache.keys()`. -/
def keys (env : Env) (w : World) : List String :=
  env.keyOrder w.stringPixmapCache.rawKeys

/-- Method `DivePictureModel::data`. `none` stands for `keys().at(row)` with a row
beyond the keys, which the toolkit does not define. -/
def data (env : Env) (w : World) (index : QModelIndex) (role : Int) : Option QVariant :=
  if !index.isValid then some QVariant.invalid
  else
    match (keys env w)[index.row.toNat]? with
    | none => none
    | some key =>
      if index.column = 0 then
        if role = Qt.ToolTipRole then some (QVariant.ofString key)
        else if role = Qt.DecorationRole then
          some (QVariant.ofImage (w.stringPixmapCache.value key).image)
        else if role = Qt.DisplayRole then some (QVariant.ofString (env.fileName key))
        else if role = Qt.DisplayPropertyRole then some (QVariant.ofString (env.filePath key))
        else some QVariant.invalid
      else if index.column = 1 then
        if role = Qt.UserRole then
          some (QVariant.ofInt (w.stringPixmapCache.value key).offsetSeconds)
        else if role = Qt.DisplayRole then some (QVariant.ofString key)
        else some QVariant.invalid
      else some QVariant.invalid

/-- The table of answers the model gives for the key `k` of a row and its
stored `PhotoHelper`: column 0 answers the tool tip, decoration, display and
display-property roles, column 1 the user and display roles, and every other
pair of column and role gets the empty `QVariant`. -/
def roleTable (env : Env) (k : String) (stored : PhotoHelper) (column role : Int) : QVariant :=
  if column = 0 ∧ role = Qt.ToolTipRole then QVariant.ofString k
  else if column = 0 ∧ role = Qt.DecorationRole then QVariant.ofImage stored.image
  else if column = 0 ∧ role = Qt.DisplayRole then QVariant.ofString (env.fileName k)
  else if column = 0 ∧ role = Qt.DisplayPropertyRole then QVariant.ofString (env.filePath k)
  else if column = 1 ∧ role = Qt.UserRole then QVariant.ofInt stored.offsetSeconds
  else if column = 1 ∧ role = Qt.DisplayRole then QVariant.ofString k
  else QVariant.invalid

/-- The file `saveImage` writes to: the cache directory, a slash, the hex text
of the SHA-1 of the data. -/
def imageFile (env : Env) (imageData : QByteArray) : String :=
  (env.cacheLocation ++ "/") ++ toHex (env.sha1 imageData)

/-- Slot `ImageDownloader::saveImage(QNetworkReply *reply)`, for the downloader of
`pic` and a reply whose `readAll()` is `imageData`. -/
def saveImage (env : Env) (pic : picture) (imageData : QByteArray) (w : World) : World :=
  let hash := env.sha1 imageData
  let path := env.cacheLocation
  let w1 : World :=
    if !env.dirExists w.log path then { w with log := w.log ++ [Event.mkpath path] } else w
  let file := imageFile env imageData
  let w2 : World :=
    if env.openWriteOnly w1.log file then
      updateDivePictures env
        { w1 with
          displayed_dive := env.learnHash pic hash w1.displayed_dive,
          log := w1.log ++ [Event.writeRawData file imageData, Event.add_hash file hash,
            Event.learnHash pic hash] }
    else w1
  { w2 with log := w2.log ++ [Event.deleteLater, Event.deleteLater] }

/-! ## A sample environment -/

/-- A sample environment. `a.jpg` is a local file that loads (400 x 300);
`gone.jpg` is a local name that does not load; the hash `bb` is registered for
the file `cache/bb`, which loads (100 x 200); nothing else loads. -/
def sampleEnv : Env where
  isLocalFile := fun s => decide (s = "a.jpg") || decide (s = "gone.jpg")
  toLocalFile := fun s => s
  load := fun _ path =>
    if path = "a.jpg" then QImage.pixels 400 300 "a"
    else if path = "cache/bb" then QImage.pixels 100 200 "b"
    else QImage.null
  fileFromHash := fun _ h =>
    match h with
    | some t => "cache/" ++ t
    | none => ""
  hashFile := fun _ _ => [171, 1]
  sz_pic := 96
  keyOrder := fun l => l
  fileName := fun s => s
  filePath := fun s => s
  sha1 := fun data => data.reverse
  cacheLocation := "/cache"
  dirExists := fun _ _ => true
  openWriteOnly := fun _ file => decide (file ≠ "/cache/")
  learnHash := fun _ _ d => d
  dive_remove_picture := fun name d => ⟨d.picture_list.eraseP (fun p => decide (p.filename = name))⟩

/-- A picture named `a.jpg`. -/
def picA : picture := ⟨"a.jpg", none, 5⟩

/-- A picture named `gone.jpg` with an unregistered hash. -/
def picGone : picture := ⟨"gone.jpg", some "00", 7⟩

/-- A picture named `gone.jpg` whose hash `bb` is registered. -/
def picGoneHashed : picture := ⟨"gone.jpg", some "bb", 9⟩

/-- A remote picture whose hash `bb` is registered. -/
def picB : picture := ⟨"http://host/b.jpg", some "bb", 11⟩

/-- A second picture named `a.jpg`. -/
def picA2 : picture := ⟨"a.jpg", none, 20⟩

/-- A world with a non-empty dive table and the given displayed dive, a model
that shows nothing yet, and empty caches. -/
def freshWorld (pictures : List picture) : World where
  dive_table_nr := 1
  current_dive := ⟨pictures⟩
  displayed_dive := ⟨pictures⟩
  numberOfPictures := 0
  stringPixmapCache := QHash.empty
  cache := QHash.empty
  log := []

/-! ## The hash container -/

theorem lookupEntry_insertEntry_same {α : Type} (k : String) (v : α) (l : List (String × α)) :
    lookupEntry k (insertEntry k v l) = some v := by
  induction l with
  | nil => simp [insertEntry, lookupEntry]
  | cons e es ih =>
    by_cases h : e.1 = k
    · simp [insertEntry, lookupEntry, h]
    · simp [insertEntry, lookupEntry, h, ih]

theorem lookupEntry_insertEntry_other {α : Type} (k j : String) (v : α) (l : List (String × α))
    (hne : j ≠ k) : lookupEntry j (insertEntry k v l) = lookupEntry j l := by
  induction l with
  | nil =>
    have hkj : ¬ k = j := fun h => hne h.symm
    simp [insertEntry, lookupEntry, hkj]
  | cons e es ih =>
    by_cases h : e.1 = k
    · have hkj : ¬ k = j := fun h2 => hne h2.symm
      have hej : ¬ e.1 = j := fun h2 => hne (h2.symm.trans h)
      simp [insertEntry, lookupEntry, h, hkj, hej]
    · by_cases h2 : e.1 = j
      · simp [insertEntry, lookupEntry, h2, hne]
      · simp [insertEntry, lookupEntry, h, h2, ih]

theorem value_insert_same {α : Type} [Inhabited α] (m : QHash α) (k : String) (v : α) :
    (m.insert k v).value k = v := by
  simp [QHash.insert, QHash.value, lookupEntry_insertEntry_same]

theorem value_insert_other {α : Type} [Inhabited α] (m : QHash α) (k j : String) (v : α)
    (hne : j ≠ k) : (m.insert k v).value j = m.value j := by
  simp [QHash.insert, QHash.value, lookupEntry_insertEntry_other k j v m.entries hne]

theorem contains_insert_same {α : Type} (m : QHash α) (k : String) (v : α) :
    (m.insert k v).contains k = true := by
  simp [QHash.insert, QHash.contains, lookupEntry_insertEntry_same]

theorem contains_insert_other {α : Type} (m : QHash α) (k j : String) (v : α)
    (hne : j ≠ k) : (m.insert k v).contains j = m.contains j := by
  simp [QHash.insert, QHash.contains, lookupEntry_insertEntry_other k j v m.entries hne]

/-! ## The image loader -/

theorem SHashedImage_filename (env : Env) (pic : picture) (log : List Event) :
    (SHashedImage env pic log).picture.filename = pic.filename ∧
      (SHashedImage env pic log).picture.offset = pic.offset := by
  unfold SHashedImage
  simp only []
  split_ifs <;> simp

theorem scaleImages_filename (env : Env) (pic : picture) (cache : QHash QImage)
    (log : List Event) :
    (scaleImages env pic cache log).ret.1.filename = pic.filename ∧
      (scaleImages env pic cache log).ret.1.offset = pic.offset := by
  unfold scaleImages
  split_ifs
  · simp
  · exact SHashedImage_filename env pic log

theorem blockingMapped_length (env : Env) (pictures : List picture) :
    ∀ (cache : QHash QImage) (log : List Event),
      (blockingMapped env pictures cache log).1.length = pictures.length := by
  induction pictures with
  | nil => intro cache log; simp [blockingMapped]
  | cons p ps ih => intro cache log; simp [blockingMapped, ih]

theorem blockingMapped_filenames (env : Env) (pictures : List picture) :
    ∀ (cache : QHash QImage) (log : List Event),
      (blockingMapped env pictures cache log).1.map (fun px => px.1.filename)
        = pictures.map (fun p => p.filename) := by
  induction pictures with
  | nil => intro cache log; simp [blockingMapped]
  | cons p ps ih =>
    intro cache log
    simp [blockingMapped, ih, (scaleImages_filename env p cache log).1]

/-! ## Row count -/

theorem updateDivePictures_numberOfPictures (env : Env) (w : World) :
    (updateDivePictures env w).numberOfPictures
      = if w.dive_table_nr = 0 then 0 else dive_get_picture_count w.displayed_dive := by
  unfold updateDivePictures
  by_cases h0 : w.numberOfPictures = 0 <;> by_cases hnr : w.dive_table_nr = 0 <;>
    simp [h0, hnr] <;> split_ifs <;> simp_all

theorem updateDivePictures_dive_table_nr (env : Env) (w : World) :
    (updateDivePictures env w).dive_table_nr = w.dive_table_nr := by
  unfold updateDivePictures
  by_cases h0 : w.numberOfPictures = 0 <;> simp [h0] <;> split_ifs <;> simp

theorem updateDivePictures_displayed_count (env : Env) (w : World) :
    dive_get_picture_count (updateDivePictures env w).displayed_dive
      = dive_get_picture_count w.displayed_dive := by
  unfold updateDivePictures
  by_cases h0 : w.numberOfPictures = 0 <;> simp [h0] <;> split_ifs <;>
    simp [dive_get_picture_count, blockingMapped_length]

/-- C1: after `updateDivePictures`, `rowCount` is the picture count of the
displayed dive when the dive table is not empty and 0 when it is empty, for
every previous state; the displayed dive keeps its picture count. -/
theorem updateDivePictures_rowCount (env : Env) (w : World) :
    rowCount (updateDivePictures env w)
        = (if w.dive_table_nr = 0 then 0 else dive_get_picture_count w.displayed_dive) ∧
      dive_get_picture_count (updateDivePictures env w).displayed_dive
        = dive_get_picture_count w.displayed_dive ∧
      (updateDivePictures env w).dive_table_nr = w.dive_table_nr :=
  ⟨updateDivePictures_numberOfPictures env w, updateDivePictures_displayed_count env w,
    updateDivePictures_dive_table_nr env w⟩

/-- C2: `SHashedImage` tries the local file, then the file registered for the
hash, then the download, and ends in exactly one of three outcomes: a local
file that loads is the image and nothing is scheduled; otherwise the file of
`fileFromHash(picture->hash)` is loaded and, when it is not null, only
`updateHash` is scheduled; otherwise only `loadPicuture` is scheduled and the
image is null. -/
theorem SHashedImage_sources (env : Env) (pic : picture) (log : List Event) :
    let path := env.toLocalFile pic.filename
    if env.isLocalFile pic.filename = true ∧ (env.load log path).isNull = false then
      (SHashedImage env pic log).image = env.load log path ∧
        (SHashedImage env pic log).log = log ++ [Event.load path]
    else
      let log1 := if env.isLocalFile pic.filename = true then log ++ [Event.load path] else log
      let hashed := env.fileFromHash log1 pic.hash
      if (env.load log1 hashed).isNull = false then
        (SHashedImage env pic log).image = env.load log1 hashed ∧
          (SHashedImage env pic log).picture = pic ∧
          (SHashedImage env pic log).log
            = log1 ++ [Event.load hashed, Event.runUpdateHash pic]
      else
        (SHashedImage env pic log).image = QImage.null ∧
          (SHashedImage env pic log).picture = pic ∧
          (SHashedImage env pic log).log
            = log1 ++ [Event.load hashed, Event.runLoadPicuture pic] := by
  intro path
  unfold SHashedImage
  by_cases hl : env.isLocalFile pic.filename = true
  · cases h1 : env.load log (env.toLocalFile pic.filename) with
    | null =>
      cases h2 : env.load (log ++ [Event.load (env.toLocalFile pic.filename)])
          (env.fileFromHash (log ++ [Event.load (env.toLocalFile pic.filename)]) pic.hash) <;>
        simp [hl, h1, h2, path, QImage.isNull]
    | pixels a b c => simp [hl, h1, path, QImage.isNull]
  · cases h2 : env.load log (env.fileFromHash log pic.hash) <;>
      simp [hl, h2, path, QImage.isNull]

theorem data_eq (env : Env) (w : World) (index : QModelIndex) (role : Int) :
    data env w index role
      = if index.isValid = true then
          ((keys env w)[index.row.toNat]?).map
            (fun k => roleTable env k (w.stringPixmapCache.value k) index.column role)
        else some QVariant.invalid := by
  unfold data
  by_cases hv : index.isValid = true
  · simp only [hv, Bool.not_true, Bool.false_eq_true, if_false, if_true]
    cases hk : (keys env w)[index.row.toNat]? with
    | none => simp
    | some k =>
      simp only [Option.map_some']
      unfold roleTable
      by_cases hc0 : index.column = 0
      · simp only [hc0, true_and, if_true]
        have h10 : ¬ ((0 : Int) = 1) := by decide
        simp only [h10, false_and, if_false]
        split_ifs <;> rfl
      · by_cases hc1 : index.column = 1
        · have h10 : ¬ ((1 : Int) = 0) := by decide
          simp only [hc1, h10, if_false, false_and, true_and, if_true]
          split_ifs <;> rfl
        · simp [hc0, hc1]
  · simp [hv]

/-! ## The thumbnail function: hit and miss -/

theorem scaleImages_hit (env : Env) (pic : picture) (cache : QHash QImage) (log : List Event)
    (h : cacheServes cache pic.filename = true) :
    scaleImages env pic cache log
      = { ret := (pic, cache.value pic.filename), cache := cache, log := log } := by
  unfold scaleImages
  unfold cacheServes at h
  rw [if_pos h]

theorem scaleImages_miss (env : Env) (pic : picture) (cache : QHash QImage) (log : List Event)
    (h : cacheServes cache pic.filename = false) :
    scaleImages env pic cache log
      = { ret := ((SHashedImage env pic log).picture,
            if !(SHashedImage env pic log).image.isNull then
              (SHashedImage env pic log).image.scaled env.sz_pic env.sz_pic
            else (SHashedImage env pic log).image),
          cache := cache.insert pic.filename
            (if !(SHashedImage env pic log).image.isNull then
              (SHashedImage env pic log).image.scaled env.sz_pic env.sz_pic
            else (SHashedImage env pic log).image),
          log := (SHashedImage env pic log).log } := by
  unfold scaleImages
  have hc : ¬ ((cache.contains pic.filename && !(cache.value pic.filename).isNull) = true) := by
    intro hc
    unfold cacheServes at h
    rw [hc] at h
    exact Bool.noConfusion h
  rw [if_neg hc]

/-! ## Scaling -/

theorem scaled_pixels (w h dim : Int) (c : String) (hw : 0 < w) (hh : 0 < h) (hdim : 0 < dim) :
    (QImage.pixels w h c).scaled dim dim
      = if dim * w / h ≤ dim then QImage.pixels (max (dim * w / h) 1) dim c
        else QImage.pixels dim (max (dim * h / w) 1) c := by
  have h1 : Int.tdiv (dim * w) h = dim * w / h :=
    Int.tdiv_eq_ediv (Int.mul_nonneg hdim.le hw.le) hh.le
  have h2 : Int.tdiv (dim * h) w = dim * h / w :=
    Int.tdiv_eq_ediv (Int.mul_nonneg hdim.le hh.le) hw.le
  have hw0 : ¬ w = 0 := by omega
  have hh0 : ¬ h = 0 := by omega
  have hd1 : ¬ dim < 1 := by omega
  have hmax : max dim 1 = dim := by omega
  unfold QImage.scaled QSize.scaled
  simp only [hw0, hh0, hd1, or_self, if_false, h1, h2]
  split_ifs <;> simp [hmax]

/-- C6: on a cache miss, a picture whose image loads with width `w > 0` and
height `h > 0` gets that image scaled, aspect kept, into the square of side
`dim = sz_pic`: both sides are at most `dim`, the larger one is `dim`, and the
other one is `w * dim / h` or `h * dim / w` rounded down to a whole pixel (at
least one pixel), so less than one pixel away from the exact quotient. -/
theorem scaleImages_fits_square (env : Env) (pic : picture) (cache : QHash QImage)
    (log : List Event) (w h : Int) (c : String)
    (hmiss : cacheServes cache pic.filename = false)
    (hload : (SHashedImage env pic log).image = QImage.pixels w h c)
    (hw : 0 < w) (hh : 0 < h) (hdim : 0 < env.sz_pic) :
    let dim := env.sz_pic
    let r := (scaleImages env pic cache log).ret.2
    r = (QImage.pixels w h c).scaled dim dim ∧ r.isNull = false ∧
      r.width ≤ dim ∧ r.height ≤ dim ∧ max r.width r.height = dim ∧
      ((r.height = dim ∧ r.width = max (w * dim / h) 1 ∧
          w * dim - h < r.width * h ∧ r.width * h < w * dim + h) ∨
        (r.width = dim ∧ r.height = max (h * dim / w) 1 ∧
          h * dim - w < r.height * w ∧ r.height * w < h * dim + w)) := by
  intro dim r
  have hr : r = (QImage.pixels w h c).scaled dim dim := by
    show (scaleImages env pic cache log).ret.2 = _
    rw [scaleImages_miss env pic cache log hmiss, hload]
    rfl
  refine ⟨hr, ?_⟩
  rw [hr, scaled_pixels w h dim c hw hh hdim]
  have hwd : dim * w = w * dim := Int.mul_comm _ _
  have hhd : dim * h = h * dim := Int.mul_comm _ _
  rw [hwd, hhd]
  have hpw : 0 < w * dim := Int.mul_pos hw hdim
  have hph : 0 < h * dim := Int.mul_pos hh hdim
  have hq1 : 0 ≤ w * dim / h := Int.ediv_nonneg hpw.le hh.le
  have hq2 : 0 ≤ h * dim / w := Int.ediv_nonneg hph.le hw.le
  have ha1 : w * dim / h * h ≤ w * dim := Int.ediv_mul_le _ (by omega)
  have ha2 : w * dim < (w * dim / h + 1) * h := Int.lt_ediv_add_one_mul_self _ hh
  have hb1 : h * dim / w * w ≤ h * dim := Int.ediv_mul_le _ (by omega)
  have hb2 : h * dim < (h * dim / w + 1) * w := Int.lt_ediv_add_one_mul_self _ hw
  by_cases hfit : w * dim / h ≤ dim
  · simp only [hfit, if_true, QImage.isNull, QImage.width, QImage.height, true_and]
    have hm : max (w * dim / h) 1 ≤ dim := by omega
    refine ⟨hm, le_refl _, by omega, Or.inl ⟨?_, ?_⟩⟩
    · by_cases hlt : w * dim / h < 1
      · have hz : w * dim / h = 0 := by omega
        rw [hz] at ha2
        have hmx : max (w * dim / h) 1 = 1 := by omega
        rw [hmx]; linarith
      · have hmx : max (w * dim / h) 1 = w * dim / h := by omega
        rw [hmx]; linarith
    · by_cases hlt : w * dim / h < 1
      · have hmx : max (w * dim / h) 1 = 1 := by omega
        rw [hmx]; linarith
      · have hmx : max (w * dim / h) 1 = w * dim / h := by omega
        rw [hmx]; linarith
  · simp only [hfit, if_false, QImage.isNull, QImage.width, QImage.height, true_and]
    have hwh : h < w := by
      by_contra hcon
      have hle : w ≤ h := by omega
      have h1 : w * dim ≤ dim * h := by
        rw [Int.mul_comm w dim]
        exact Int.mul_le_mul_of_nonneg_left hle hdim.le
      have h2 : w * dim / h ≤ dim := Int.ediv_le_of_le_mul hh h1
      omega
    have hlt : h * dim / w < dim := by
      apply Int.ediv_lt_of_lt_mul hw
      rw [Int.mul_comm h dim]
      exact Int.mul_lt_mul_of_pos_left hwh hdim
    have hm : max (h * dim / w) 1 ≤ dim := by omega
    refine ⟨le_refl _, hm, by omega, Or.inr ⟨?_, ?_⟩⟩
    · by_cases hlt1 : h * dim / w < 1
      · have hz : h * dim / w = 0 := by omega
        rw [hz] at hb2
        have hmx : max (h * dim / w) 1 = 1 := by omega
        rw [hmx]; linarith
      · have hmx : max (h * dim / w) 1 = h * dim / w := by omega
        rw [hmx]; linarith
    · by_cases hlt1 : h * dim / w < 1
      · have hmx : max (h * dim / w) 1 = 1 := by omega
        rw [hmx]; linarith
      · have hmx : max (h * dim / w) 1 = h * dim / w := by omega
        rw [hmx]; linarith

/-- A picture that loads at 400 x 300 becomes a 96 x 72 thumbnail. -/
theorem scaleImages_fits_square_witness :
    (scaleImages sampleEnv picA QHash.empty []).ret.2 = QImage.pixels 96 72 "a" ∧
      (scaleImages sampleEnv picA QHash.empty []).ret.2.width ≤ 96 ∧
      max (scaleImages sampleEnv picA QHash.empty []).ret.2.width
        (scaleImages sampleEnv picA QHash.empty []).ret.2.height = 96 := by
  have h := scaleImages_fits_square sampleEnv picA QHash.empty [] 400 300 "a"
    (by decide) (by decide) (by decide) (by decide) (by decide)
  exact ⟨by decide, h.2.2.1, h.2.2.2.2.1⟩

/-! ## The thumbnail cache across calls -/

theorem isNull_eq_true {img : QImage} (h : img.isNull = true) : img = QImage.null := by
  cases img with
  | null => rfl
  | pixels a b c => exact Bool.noConfusion h

theorem SHashedImage_loads (env : Env) (pic : picture) (log : List Event) :
    ∃ path rest, (SHashedImage env pic log).log = log ++ Event.load path :: rest := by
  by_cases hl : env.isLocalFile pic.filename = true
  · cases h1 : env.load log (env.toLocalFile pic.filename) with
    | null =>
      cases h2 : env.load (log ++ [Event.load (env.toLocalFile pic.filename)])
          (env.fileFromHash (log ++ [Event.load (env.toLocalFile pic.filename)]) pic.hash) with
      | null =>
        exact ⟨env.toLocalFile pic.filename, [Event.load (env.fileFromHash
          (log ++ [Event.load (env.toLocalFile pic.filename)]) pic.hash),
          Event.runLoadPicuture pic], by simp [SHashedImage, hl, h1, h2, QImage.isNull]⟩
      | pixels a b c =>
        exact ⟨env.toLocalFile pic.filename, [Event.load (env.fileFromHash
          (log ++ [Event.load (env.toLocalFile pic.filename)]) pic.hash),
          Event.runUpdateHash pic], by simp [SHashedImage, hl, h1, h2, QImage.isNull]⟩
    | pixels a b c =>
      exact ⟨env.toLocalFile pic.filename, [], by simp [SHashedImage, hl, h1, QImage.isNull]⟩
  · cases h2 : env.load log (env.fileFromHash log pic.hash) with
    | null =>
      exact ⟨env.fileFromHash log pic.hash, [Event.runLoadPicuture pic],
        by simp [SHashedImage, hl, h2, QImage.isNull]⟩
    | pixels a b c =>
      exact ⟨env.fileFromHash log pic.hash, [Event.runUpdateHash pic],
        by simp [SHashedImage, hl, h2, QImage.isNull]⟩

theorem scaleImages_keeps_served (env : Env) (q : picture) (cache : QHash QImage)
    (log : List Event) (f : String) (h : cacheServes cache f = true) :
    cacheServes (scaleImages env q cache log).cache f = true ∧
      (scaleImages env q cache log).cache.value f = cache.value f := by
  by_cases hq : cacheServes cache q.filename = true
  · rw [scaleImages_hit env q cache log hq]
    exact ⟨h, rfl⟩
  · have hq2 : cacheServes cache q.filename = false := by simpa using hq
    have hne : f ≠ q.filename := by
      intro he
      rw [he] at h
      exact hq h
    rw [scaleImages_miss env q cache log hq2]
    unfold cacheServes at h ⊢
    simp only [contains_insert_other _ _ _ _ hne, value_insert_other _ _ _ _ hne]
    exact ⟨h, trivial⟩

theorem scaleImagesCalls_keeps_served (calls : List (Env × picture)) (f : String) :
    ∀ (cache : QHash QImage) (log : List Event), cacheServes cache f = true →
      cacheServes (scaleImagesCalls calls cache log).1 f = true ∧
        (scaleImagesCalls calls cache log).1.value f = cache.value f := by
  induction calls with
  | nil => intro cache log h; exact ⟨h, rfl⟩
  | cons call calls ih =>
    intro cache log h
    have h1 := scaleImages_keeps_served call.1 call.2 cache log f h
    have h2 := ih (scaleImages call.1 call.2 cache log).cache
      (scaleImages call.1 call.2 cache log).log h1.1
    exact ⟨h2.1, h2.2.trans h1.2⟩

theorem scaleImages_keeps_unserved (env : Env) (q : picture) (cache : QHash QImage)
    (log : List Event) (f : String) (h : cacheServes cache f = false) (hne : q.filename ≠ f) :
    cacheServes (scaleImages env q cache log).cache f = false := by
  by_cases hq : cacheServes cache q.filename = true
  · rw [scaleImages_hit env q cache log hq]
    exact h
  · have hq2 : cacheServes cache q.filename = false := by simpa using hq
    rw [scaleImages_miss env q cache log hq2]
    unfold cacheServes at h ⊢
    simp only [contains_insert_other _ _ _ _ (Ne.symm hne),
      value_insert_other _ _ _ _ (Ne.symm hne)]
    exact h

theorem scaleImages_result_cached (env : Env) (pic : picture) (cache : QHash QImage)
    (log : List Event) :
    (scaleImages env pic cache log).cache.contains pic.filename = true ∧
      (scaleImages env pic cache log).cache.value pic.filename
        = (scaleImages env pic cache log).ret.2 := by
  by_cases hq : cacheServes cache pic.filename = true
  · rw [scaleImages_hit env pic cache log hq]
    unfold cacheServes at hq
    simp only [Bool.and_eq_true] at hq
    exact ⟨hq.1, rfl⟩
  · have hq2 : cacheServes cache pic.filename = false := by simpa using hq
    rw [scaleImages_miss env pic cache log hq2]
    exact ⟨contains_insert_same _ _ _, value_insert_same _ _ _⟩

theorem scaleImagesCalls_unserved (calls : List (Env × picture)) (f : String) :
    ∀ (cache : QHash QImage) (log : List Event), cacheServes cache f = false →
      (∀ px ∈ scaleImagesReturns calls cache log, px.1.filename = f → px.2 = QImage.null) →
      cacheServes (scaleImagesCalls calls cache log).1 f = false := by
  induction calls with
  | nil => intro cache log h _; exact h
  | cons call calls ih =>
    intro cache log h hall
    have hrest : ∀ px ∈ scaleImagesReturns calls (scaleImages call.1 call.2 cache log).cache
        (scaleImages call.1 call.2 cache log).log, px.1.filename = f → px.2 = QImage.null :=
      fun px hpx => hall px (List.mem_cons_of_mem _ hpx)
    have hhead : cacheServes (scaleImages call.1 call.2 cache log).cache f = false := by
      by_cases hq : call.2.filename = f
      · have hnull : (scaleImages call.1 call.2 cache log).ret.2 = QImage.null :=
          hall _ (List.mem_cons_self _ _)
            ((scaleImages_filename call.1 call.2 cache log).1.trans hq)
        have hc := scaleImages_result_cached call.1 call.2 cache log
        rw [← hq]
        unfold cacheServes
        rw [hc.1, hc.2, hnull]
        rfl
      · exact scaleImages_keeps_unserved call.1 call.2 cache log f h hq
    exact ih _ _ hhead hrest

/-- C7, as stated, fails in its last sentence: the call for `gone.jpg` with the
unregistered hash returns the null image; a later call for `gone.jpg` with the
registered hash loads a thumbnail; the call after that for the first picture
is served that thumbnail from the cache and loads nothing. -/
theorem null_result_later_served :
    (scaleImages sampleEnv picGone QHash.empty []).ret.2 = QImage.null ∧
      (scaleImages sampleEnv picGone
          (scaleImagesCalls [(sampleEnv, picGoneHashed)]
            (scaleImages sampleEnv picGone QHash.empty []).cache
            (scaleImages sampleEnv picGone QHash.empty []).log).1
          (scaleImagesCalls [(sampleEnv, picGoneHashed)]
            (scaleImages sampleEnv picGone QHash.empty []).cache
            (scaleImages sampleEnv picGone QHash.empty []).log).2).ret
        = (picGone, QImage.pixels 48 96 "b") ∧
      (scaleImages sampleEnv picGone
          (scaleImagesCalls [(sampleEnv, picGoneHashed)]
            (scaleImages sampleEnv picGone QHash.empty []).cache
            (scaleImages sampleEnv picGone QHash.empty []).log).1
          (scaleImagesCalls [(sampleEnv, picGoneHashed)]
            (scaleImages sampleEnv picGone QHash.empty []).cache
            (scaleImages sampleEnv picGone QHash.empty []).log).2).log
        = (scaleImagesCalls [(sampleEnv, picGoneHashed)]
            (scaleImages sampleEnv picGone QHash.empty []).cache
            (scaleImages sampleEnv picGone QHash.empty []).log).2 := by
  decide

/-- C7, amended: `scaleImages` answers from its cache exactly when the cache
holds a non-null image for the file name, and then does nothing else;
otherwise it constructs the `SHashedImage`, which starts with a load. Once a
call has returned a non-null image, every later call for that file name
returns the same image, with the cache and the log untouched. A null result is
in the cache but is not served: every later call for the name loads again, as
long as no call for that name in between has returned a non-null image. -/
theorem scaleImages_cache (env : Env) (pic : picture) (cache : QHash QImage)
    (log : List Event) :
    (if cacheServes cache pic.filename = true then
        scaleImages env pic cache log
          = { ret := (pic, cache.value pic.filename), cache := cache, log := log }
      else
        (scaleImages env pic cache log).log = (SHashedImage env pic log).log ∧
          ∃ path rest, (scaleImages env pic cache log).log = log ++ Event.load path :: rest) ∧
      ((scaleImages env pic cache log).ret.2.isNull = false →
        ∀ (later : List (Env × picture)) (env2 : Env) (q : picture),
          q.filename = pic.filename →
          scaleImages env2 q
              (scaleImagesCalls later (scaleImages env pic cache log).cache
                (scaleImages env pic cache log).log).1
              (scaleImagesCalls later (scaleImages env pic cache log).cache
                (scaleImages env pic cache log).log).2
            = { ret := (q, (scaleImages env pic cache log).ret.2),
                cache := (scaleImagesCalls later (scaleImages env pic cache log).cache
                  (scaleImages env pic cache log).log).1,
                log := (scaleImagesCalls later (scaleImages env pic cache log).cache
                  (scaleImages env pic cache log).log).2 }) ∧
      ((scaleImages env pic cache log).ret.2.isNull = true →
        (scaleImages env pic cache log).cache.contains pic.filename = true ∧
          (scaleImages env pic cache log).cache.value pic.filename = QImage.null ∧
          ∀ (later : List (Env × picture)) (env2 : Env) (q : picture),
            q.filename = pic.filename →
            (∀ px ∈ scaleImagesReturns later (scaleImages env pic cache log).cache
                (scaleImages env pic cache log).log,
              px.1.filename = pic.filename → px.2 = QImage.null) →
            ∃ path rest,
              (scaleImages env2 q
                  (scaleImagesCalls later (scaleImages env pic cache log).cache
                    (scaleImages env pic cache log).log).1
                  (scaleImagesCalls later (scaleImages env pic cache log).cache
                    (scaleImages env pic cache log).log).2).log
                = (scaleImagesCalls later (scaleImages env pic cache log).cache
                    (scaleImages env pic cache log).log).2 ++ Event.load path :: rest) := by
  have hcached := scaleImages_result_cached env pic cache log
  refine ⟨?_, ?_, ?_⟩
  · by_cases hq : cacheServes cache pic.filename = true
    · rw [if_pos hq]
      exact scaleImages_hit env pic cache log hq
    · rw [if_neg hq]
      have hq2 : cacheServes cache pic.filename = false := by simpa using hq
      rw [scaleImages_miss env pic cache log hq2]
      exact ⟨rfl, SHashedImage_loads env pic log⟩
  · intro hnn later env2 q hq
    have hs : cacheServes (scaleImages env pic cache log).cache pic.filename = true := by
      unfold cacheServes
      rw [hcached.1, hcached.2, hnn]
      rfl
    have hk := scaleImagesCalls_keeps_served later pic.filename
      (scaleImages env pic cache log).cache (scaleImages env pic cache log).log hs
    rw [← hq] at hk
    rw [scaleImages_hit env2 q _ _ hk.1, hk.2, hq, hcached.2]
  · intro hn
    refine ⟨hcached.1, ?_, ?_⟩
    · rw [hcached.2]
      exact isNull_eq_true hn
    · intro later env2 q hq hnulls
      have hs : cacheServes (scaleImages env pic cache log).cache pic.filename = false := by
        unfold cacheServes
        rw [hcached.1, hcached.2, hn]
        rfl
      have hk := scaleImagesCalls_unserved later pic.filename
        (scaleImages env pic cache log).cache (scaleImages env pic cache log).log hs hnulls
      rw [← hq] at hk
      rw [scaleImages_miss env2 q _ _ hk]
      exact SHashedImage_loads env2 q _

/-- The thumbnail of `a.jpg` is served again after a call for another picture;
the null result for `gone.jpg` is in the cache, and after a call for another
picture and a second call for `gone.jpg` that also returns null, the next call
for `gone.jpg` starts with a load. -/
theorem scaleImages_cache_witness :
    scaleImages sampleEnv picA
        (scaleImagesCalls [(sampleEnv, picB)] (scaleImages sampleEnv picA QHash.empty []).cache
          (scaleImages sampleEnv picA QHash.empty []).log).1
        (scaleImagesCalls [(sampleEnv, picB)] (scaleImages sampleEnv picA QHash.empty []).cache
          (scaleImages sampleEnv picA QHash.empty []).log).2
      = { ret := (picA, QImage.pixels 96 72 "a"),
          cache := (scaleImagesCalls [(sampleEnv, picB)]
            (scaleImages sampleEnv picA QHash.empty []).cache
            (scaleImages sampleEnv picA QHash.empty []).log).1,
          log := (scaleImagesCalls [(sampleEnv, picB)]
            (scaleImages sampleEnv picA QHash.empty []).cache
            (scaleImages sampleEnv picA QHash.empty []).log).2 } ∧
      (scaleImages sampleEnv picGone QHash.empty []).cache.value "gone.jpg" = QImage.null ∧
      ∃ path rest,
        (scaleImages sampleEnv picGone
            (scaleImagesCalls [(sampleEnv, picB), (sampleEnv, picGone)]
              (scaleImages sampleEnv picGone QHash.empty []).cache
              (scaleImages sampleEnv picGone QHash.empty []).log).1
            (scaleImagesCalls [(sampleEnv, picB), (sampleEnv, picGone)]
              (scaleImages sampleEnv picGone QHash.empty []).cache
              (scaleImages sampleEnv picGone QHash.empty []).log).2).log
          = (scaleImagesCalls [(sampleEnv, picB), (sampleEnv, picGone)]
              (scaleImages sampleEnv picGone QHash.empty []).cache
              (scaleImages sampleEnv picGone QHash.empty []).log).2 ++ Event.load path :: rest :=
  ⟨(scaleImages_cache sampleEnv picA QHash.empty []).2.1 (by decide) [(sampleEnv, picB)]
      sampleEnv picA rfl,
    ((scaleImages_cache sampleEnv picGone QHash.empty []).2.2 (by decide)).2.1,
    ((scaleImages_cache sampleEnv picGone QHash.empty []).2.2 (by decide)).2.2
      [(sampleEnv, picB), (sampleEnv, picGone)] sampleEnv picGone rfl (by decide)⟩

/-! ## What the refresh adds to the log -/

theorem SHashedImage_log (env : Env) (pic : picture) (log : List Event) :
    ∃ added, (SHashedImage env pic log).log = log ++ added ∧
      ∀ e ∈ added, e.isStore = false := by
  by_cases hl : env.isLocalFile pic.filename = true
  · cases h1 : env.load log (env.toLocalFile pic.filename) with
    | null =>
      cases h2 : env.load (log ++ [Event.load (env.toLocalFile pic.filename)])
          (env.fileFromHash (log ++ [Event.load (env.toLocalFile pic.filename)]) pic.hash) with
      | null =>
        refine ⟨[Event.load (env.toLocalFile pic.filename), Event.load (env.fileFromHash
          (log ++ [Event.load (env.toLocalFile pic.filename)]) pic.hash),
          Event.runLoadPicuture pic], by simp [SHashedImage, hl, h1, h2, QImage.isNull], ?_⟩
        intro e he
        simp only [List.mem_cons, List.mem_singleton, List.not_mem_nil, or_false] at he
        rcases he with rfl | rfl | rfl <;> rfl
      | pixels a b c =>
        refine ⟨[Event.load (env.toLocalFile pic.filename), Event.load (env.fileFromHash
          (log ++ [Event.load (env.toLocalFile pic.filename)]) pic.hash),
          Event.runUpdateHash pic], by simp [SHashedImage, hl, h1, h2, QImage.isNull], ?_⟩
        intro e he
        simp only [List.mem_cons, List.mem_singleton, List.not_mem_nil, or_false] at he
        rcases he with rfl | rfl | rfl <;> rfl
    | pixels a b c =>
      refine ⟨[Event.load (env.toLocalFile pic.filename)],
        by simp [SHashedImage, hl, h1, QImage.isNull], ?_⟩
      intro e he
      simp only [List.mem_singleton] at he
      rw [he]; rfl
  · cases h2 : env.load log (env.fileFromHash log pic.hash) with
    | null =>
      refine ⟨[Event.load (env.fileFromHash log pic.hash), Event.runLoadPicuture pic],
        by simp [SHashedImage, hl, h2, QImage.isNull], ?_⟩
      intro e he
      simp only [List.mem_cons, List.mem_singleton, List.not_mem_nil, or_false] at he
      rcases he with rfl | rfl <;> rfl
    | pixels a b c =>
      refine ⟨[Event.load (env.fileFromHash log pic.hash), Event.runUpdateHash pic],
        by simp [SHashedImage, hl, h2, QImage.isNull], ?_⟩
      intro e he
      simp only [List.mem_cons, List.mem_singleton, List.not_mem_nil, or_false] at he
      rcases he with rfl | rfl <;> rfl

theorem scaleImages_log (env : Env) (pic : picture) (cache : QHash QImage) (log : List Event) :
    ∃ added, (scaleImages env pic cache log).log = log ++ added ∧
      ∀ e ∈ added, e.isStore = false := by
  by_cases hq : cacheServes cache pic.filename = true
  · rw [scaleImages_hit env pic cache log hq]
    exact ⟨[], by simp, by simp⟩
  · have hq2 : cacheServes cache pic.filename = false := by simpa using hq
    rw [scaleImages_miss env pic cache log hq2]
    exact SHashedImage_log env pic log

theorem blockingMapped_log (env : Env) (pictures : List picture) :
    ∀ (cache : QHash QImage) (log : List Event),
      ∃ added, (blockingMapped env pictures cache log).2.2 = log ++ added ∧
        ∀ e ∈ added, e.isStore = false := by
  induction pictures with
  | nil => intro cache log; exact ⟨[], by simp [blockingMapped], by simp⟩
  | cons p ps ih =>
    intro cache log
    obtain ⟨a1, h1, n1⟩ := scaleImages_log env p cache log
    obtain ⟨a2, h2, n2⟩ := ih (scaleImages env p cache log).cache (scaleImages env p cache log).log
    refine ⟨a1 ++ a2, ?_, ?_⟩
    · simp only [blockingMapped]
      rw [h2, h1, List.append_assoc]
    · intro e he
      rcases List.mem_append.mp he with h | h
      · exact n1 e h
      · exact n2 e h

theorem updateDivePictures_empty (env : Env) (w : World)
    (hn : (if w.dive_table_nr = 0 then 0 else dive_get_picture_count w.displayed_dive) = 0) :
    updateDivePictures env w
      = { w with
          numberOfPictures := 0,
          log := if w.numberOfPictures ≠ 0 then
              w.log ++ [Event.beginRemoveRows 0 (w.numberOfPictures - 1), Event.endRemoveRows]
            else w.log } := by
  unfold updateDivePictures
  by_cases h0 : w.numberOfPictures = 0
  · simp only [h0, ne_eq, not_true_eq_false, if_false, hn, if_true]
  · simp only [h0, ne_eq, not_false_eq_true, if_true, hn]

theorem updateDivePictures_shown (env : Env) (w : World)
    (hnr : w.dive_table_nr ≠ 0) (hn : dive_get_picture_count w.displayed_dive ≠ 0) :
    updateDivePictures env w
      = { w with
          numberOfPictures := dive_get_picture_count w.displayed_dive,
          stringPixmapCache :=
            storeImages
              (blockingMapped env w.displayed_dive.picture_list w.cache
                (if w.numberOfPictures ≠ 0 then
                  w.log ++ [Event.beginRemoveRows 0 (w.numberOfPictures - 1), Event.endRemoveRows]
                else w.log)).1
              (storeOffsets w.displayed_dive.picture_list QHash.empty),
          cache :=
            (blockingMapped env w.displayed_dive.picture_list w.cache
              (if w.numberOfPictures ≠ 0 then
                w.log ++ [Event.beginRemoveRows 0 (w.numberOfPictures - 1), Event.endRemoveRows]
              else w.log)).2.1,
          displayed_dive :=
            { picture_list :=
                (blockingMapped env w.displayed_dive.picture_list w.cache
                  (if w.numberOfPictures ≠ 0 then
                    w.log ++ [Event.beginRemoveRows 0 (w.numberOfPictures - 1),
                      Event.endRemoveRows]
                  else w.log)).1.map Prod.fst },
          log :=
            (blockingMapped env w.displayed_dive.picture_list w.cache
              (if w.numberOfPictures ≠ 0 then
                w.log ++ [Event.beginRemoveRows 0 (w.numberOfPictures - 1), Event.endRemoveRows]
              else w.log)).2.2 ++
              [Event.beginInsertRows 0 (dive_get_picture_count w.displayed_dive - 1),
                Event.endInsertRows] } := by
  unfold updateDivePictures
  by_cases h0 : w.numberOfPictures = 0
  · simp only [h0, ne_eq, not_true_eq_false, if_false, hnr, hn]
  · simp only [h0, ne_eq, not_false_eq_true, if_true, hnr, if_false, hn]

theorem removeRows_not_store (w : World) :
    ∃ added, (if w.numberOfPictures ≠ 0 then
        w.log ++ [Event.beginRemoveRows 0 (w.numberOfPictures - 1), Event.endRemoveRows]
      else w.log) = w.log ++ added ∧ ∀ e ∈ added, e.isStore = false := by
  by_cases h0 : w.numberOfPictures = 0
  · exact ⟨[], by simp [h0], by simp⟩
  · refine ⟨[Event.beginRemoveRows 0 (w.numberOfPictures - 1), Event.endRemoveRows],
      by simp [h0], ?_⟩
    intro e he
    simp only [List.mem_cons, List.mem_singleton, List.not_mem_nil, or_false] at he
    rcases he with rfl | rfl <;> rfl

theorem updateDivePictures_log (env : Env) (w : World) :
    ∃ added, (updateDivePictures env w).log = w.log ++ added ∧
      ∀ e ∈ added, e.isStore = false := by
  obtain ⟨r, hr, nr⟩ := removeRows_not_store w
  by_cases hn : (if w.dive_table_nr = 0 then 0 else dive_get_picture_count w.displayed_dive) = 0
  · rw [updateDivePictures_empty env w hn]
    exact ⟨r, hr, nr⟩
  · have hnr : w.dive_table_nr ≠ 0 := by
      intro h
      exact hn (by simp [h])
    have hc : dive_get_picture_count w.displayed_dive ≠ 0 := by
      intro h
      exact hn (by simp [h])
    rw [updateDivePictures_shown env w hnr hc]
    obtain ⟨a, ha, na⟩ := blockingMapped_log env w.displayed_dive.picture_list w.cache
      (if w.numberOfPictures ≠ 0 then
        w.log ++ [Event.beginRemoveRows 0 (w.numberOfPictures - 1), Event.endRemoveRows]
      else w.log)
    refine ⟨r ++ (a ++ [Event.beginInsertRows 0 (dive_get_picture_count w.displayed_dive - 1),
      Event.endInsertRows]), ?_, ?_⟩
    · show (blockingMapped env w.displayed_dive.picture_list w.cache _).2.2 ++ _ = _
      rw [ha, hr]
      simp only [List.append_assoc]
    · intro e he
      rcases List.mem_append.mp he with h | h
      · exact nr e h
      · rcases List.mem_append.mp h with h | h
        · exact na e h
        · simp only [List.mem_cons, List.mem_singleton, List.not_mem_nil, or_false] at h
          rcases h with rfl | rfl <;> rfl

/-! ## The downloader slot -/

theorem hexDigit_lowercase : ∀ n : Nat, n < 16 → hexDigit n ∈ "0123456789abcdef".data := by
  decide

theorem toHexChars_lowercase (bytes : QByteArray) :
    ∀ c ∈ toHexChars bytes, c ∈ "0123456789abcdef".data := by
  induction bytes with
  | nil => intro c hc; simp [toHexChars] at hc
  | cons b bs ih =>
    intro c hc
    simp only [toHexChars, List.mem_cons] at hc
    rcases hc with rfl | rfl | hc
    · exact hexDigit_lowercase _ (by have := b.isLt; omega)
    · exact hexDigit_lowercase _ (by omega)
    · exact ih c hc

theorem toHexChars_length (bytes : QByteArray) :
    (toHexChars bytes).length = 2 * bytes.length := by
  induction bytes with
  | nil => rfl
  | cons b bs ih => simp only [toHexChars, List.length_cons, ih]; omega

/-- C4: `saveImage` writes exactly the downloaded bytes to the file named by
the cache directory, a slash and the lowercase hex text of the SHA-1 of the
bytes, a name that depends on the bytes alone and not on the picture or the
state. When the file opens, the write is followed by `add_hash` for that file
and `learnHash` for the picture with that same hash, nothing else is stored,
and the model is refreshed; when it does not open, nothing is written or
registered and the model is left as it was. -/
theorem saveImage_stores (env : Env) (pic : picture) (imageData : QByteArray) (w : World) :
    let hash := env.sha1 imageData
    let file := (env.cacheLocation ++ "/") ++ toHex hash
    let log1 := if env.dirExists w.log env.cacheLocation = true then w.log
      else w.log ++ [Event.mkpath env.cacheLocation]
    (∀ c ∈ (toHex hash).data, c ∈ "0123456789abcdef".data) ∧
      (toHex hash).length = 2 * hash.length ∧
      if env.openWriteOnly log1 file = true then
        (∃ added, (saveImage env pic imageData w).log
            = log1 ++ [Event.writeRawData file imageData, Event.add_hash file hash,
                Event.learnHash pic hash] ++ added ++ [Event.deleteLater, Event.deleteLater] ∧
            ∀ e ∈ added, e.isStore = false) ∧
          rowCount (saveImage env pic imageData w)
            = (if w.dive_table_nr = 0 then 0
              else dive_get_picture_count (env.learnHash pic hash w.displayed_dive))
      else
        saveImage env pic imageData w
          = { w with log := log1 ++ [Event.deleteLater, Event.deleteLater] } := by
  intro hash file log1
  refine ⟨toHexChars_lowercase hash, ?_, ?_⟩
  · show (toHexChars hash).length = _
    exact toHexChars_length hash
  · by_cases hd : env.dirExists w.log env.cacheLocation = true
    · have hlog1 : log1 = w.log := by simp [log1, hd]
      by_cases ho : env.openWriteOnly log1 file = true
      · rw [if_pos ho]
        rw [hlog1] at ho
        obtain ⟨a, ha, na⟩ := updateDivePictures_log env
          { w with
            displayed_dive := env.learnHash pic hash w.displayed_dive,
            log := w.log ++ [Event.writeRawData file imageData, Event.add_hash file hash,
              Event.learnHash pic hash] }
        refine ⟨⟨a, ?_, na⟩, ?_⟩
        · simp only [saveImage, hd, imageFile, Bool.not_true, Bool.false_eq_true, if_false]
          rw [if_pos ho, hlog1]
          simp only [ha]
        · simp only [saveImage, hd, imageFile, Bool.not_true, Bool.false_eq_true, if_false]
          rw [if_pos ho]
          simp only [rowCount, updateDivePictures_numberOfPictures]
      · rw [if_neg ho]
        rw [hlog1] at ho ⊢
        simp only [saveImage, hd, imageFile, Bool.not_true, Bool.false_eq_true, if_false]
        rw [if_neg ho]
    · have hlog1 : log1 = w.log ++ [Event.mkpath env.cacheLocation] := by simp [log1, hd]
      have hd2 : (!env.dirExists w.log env.cacheLocation) = true := by simpa using hd
      by_cases ho : env.openWriteOnly log1 file = true
      · rw [if_pos ho]
        rw [hlog1] at ho
        obtain ⟨a, ha, na⟩ := updateDivePictures_log env
          { w with
            displayed_dive := env.learnHash pic hash w.displayed_dive,
            log := w.log ++ [Event.mkpath env.cacheLocation] ++
              [Event.writeRawData file imageData, Event.add_hash file hash,
                Event.learnHash pic hash] }
        refine ⟨⟨a, ?_, na⟩, ?_⟩
        · simp only [saveImage, hd2, imageFile, if_true]
          rw [if_pos ho, hlog1]
          simp only [ha]
        · simp only [saveImage, hd2, imageFile, if_true]
          rw [if_pos ho]
          simp only [rowCount, updateDivePictures_numberOfPictures]
      · rw [if_neg ho]
        rw [hlog1] at ho ⊢
        simp only [saveImage, hd2, imageFile, if_true]
        rw [if_neg ho]

/-! ## Removing a picture -/

/-- C10 at the failing input: a displayed dive with two pictures named `a.jpg`
gets two rows but one key, so the key lookup for row 1 is out of range. -/
theorem duplicate_filename_keys :
    rowCount (updateDivePictures sampleEnv (freshWorld [picA, picA2])) = 2 ∧
      (keys sampleEnv (updateDivePictures sampleEnv (freshWorld [picA, picA2]))).length = 1 ∧
      (keys sampleEnv (updateDivePictures sampleEnv (freshWorld [picA, picA2])))[1]? = none := by
  decide

/-- C8 at the failing input: with two pictures named `gone.jpg` there are two
rows, and for row 1 `data` has no key to answer with, for the tool tip, the
offset and the image alike. -/
theorem duplicate_filename_data :
    rowCount (updateDivePictures sampleEnv (freshWorld [picGoneHashed, picGone])) = 2 ∧
      data sampleEnv (updateDivePictures sampleEnv (freshWorld [picGoneHashed, picGone]))
        ⟨1, 0, true⟩ Qt.ToolTipRole = none ∧
      data sampleEnv (updateDivePictures sampleEnv (freshWorld [picGoneHashed, picGone]))
        ⟨1, 1, true⟩ Qt.UserRole = none ∧
      data sampleEnv (updateDivePictures sampleEnv (freshWorld [picGoneHashed, picGone]))
        ⟨1, 0, true⟩ Qt.DecorationRole = none := by
  decide

/-- C5 at the failing input: with two pictures named `a.jpg` the index of row 1
is valid and below `rowCount` in both columns, yet for every role `data` has
no key for it and so no `QVariant` to return; row 0 is answered. -/
theorem duplicate_filename_no_answer :
    (QModelIndex.mk 1 0 true).isValid = true ∧ (QModelIndex.mk 1 1 true).isValid = true ∧
      (1 : Int) < rowCount (updateDivePictures sampleEnv (freshWorld [picA, picA2])) ∧
      (1 : Int) < columnCount ⟨1, 1, true⟩ ∧
      (∀ role : Int,
        data sampleEnv (updateDivePictures sampleEnv (freshWorld [picA, picA2]))
            ⟨1, 0, true⟩ role = none ∧
          data sampleEnv (updateDivePictures sampleEnv (freshWorld [picA, picA2]))
            ⟨1, 1, true⟩ role = none) ∧
      data sampleEnv (updateDivePictures sampleEnv (freshWorld [picA, picA2]))
          ⟨0, 1, true⟩ Qt.UserRole = some (QVariant.ofInt 20) := by
  refine ⟨by decide, by decide, by decide, by decide, fun role => ⟨?_, ?_⟩, by decide⟩
  · rw [data_eq, if_pos (by decide)]
    have hk : (keys sampleEnv (updateDivePictures sampleEnv (freshWorld [picA, picA2])))[
        (QModelIndex.mk 1 0 true).row.toNat]? = none := by decide
    rw [hk]
    rfl
  · rw [data_eq, if_pos (by decide)]
    have hk : (keys sampleEnv (updateDivePictures sampleEnv (freshWorld [picA, picA2])))[
        (QModelIndex.mk 1 1 true).row.toNat]? = none := by decide
    rw [hk]
    rfl

/-! ## Keys and values of `stringPixmapCache` -/

theorem insertEntry_keys {α : Type} (k : String) (v : α) (l : List (String × α)) :
    (insertEntry k v l).map Prod.fst
      = if k ∈ l.map Prod.fst then l.map Prod.fst else l.map Prod.fst ++ [k] := by
  induction l with
  | nil => simp [insertEntry]
  | cons e es ih =>
    by_cases h : e.1 = k
    · simp [insertEntry, h]
    · have hk : ¬ k = e.1 := fun h2 => h h2.symm
      by_cases hm : k ∈ es.map Prod.fst
      · rw [if_pos hm] at ih
        have hm2 : k ∈ (e :: es).map Prod.fst := by
          rw [List.map_cons]; exact List.mem_cons_of_mem _ hm
        rw [if_pos hm2]
        simp only [insertEntry, h, if_false, List.map_cons, ih]
      · rw [if_neg hm] at ih
        have hm2 : ¬ k ∈ (e :: es).map Prod.fst := by
          rw [List.map_cons, List.mem_cons]
          intro hc
          rcases hc with hc | hc
          · exact hk hc
          · exact hm hc
        rw [if_neg hm2]
        simp only [insertEntry, h, if_false, List.map_cons, ih, List.cons_append]

theorem rawKeys_modify {α : Type} [Inhabited α] (m : QHash α) (k : String) (f : α → α) :
    (m.modify k f).rawKeys = if k ∈ m.rawKeys then m.rawKeys else m.rawKeys ++ [k] := by
  unfold QHash.modify QHash.insert QHash.rawKeys
  exact insertEntry_keys k _ m.entries

theorem value_modify_same {α : Type} [Inhabited α] (m : QHash α) (k : String) (f : α → α) :
    (m.modify k f).value k = f (m.value k) := by
  unfold QHash.modify
  exact value_insert_same _ _ _

theorem value_modify_other {α : Type} [Inhabited α] (m : QHash α) (k j : String) (f : α → α)
    (hne : j ≠ k) : (m.modify k f).value j = m.value j := by
  unfold QHash.modify
  exact value_insert_other _ _ _ _ hne

theorem mem_rawKeys_modify {α : Type} [Inhabited α] (m : QHash α) (k j : String) (f : α → α)
    (h : j = k ∨ j ∈ m.rawKeys) : j ∈ (m.modify k f).rawKeys := by
  rw [rawKeys_modify]
  by_cases hk : k ∈ m.rawKeys
  · rw [if_pos hk]
    rcases h with h | h
    · rw [h]; exact hk
    · exact h
  · rw [if_neg hk]
    rcases h with h | h
    · rw [h]; simp
    · exact List.mem_append_left _ h

theorem storeOffsets_mem (pictures : List picture) (k : String) :
    ∀ m : QHash PhotoHelper, (k ∈ pictures.map (fun p => p.filename) ∨ k ∈ m.rawKeys) →
      k ∈ (storeOffsets pictures m).rawKeys := by
  induction pictures with
  | nil =>
    intro m h
    rcases h with h | h
    · simp at h
    · exact h
  | cons p ps ih =>
    intro m h
    unfold storeOffsets
    rw [List.foldl_cons]
    apply ih
    rcases h with h | h
    · rw [List.map_cons, List.mem_cons] at h
      rcases h with h | h
      · exact Or.inr (mem_rawKeys_modify _ _ _ _ (Or.inl h))
      · exact Or.inl h
    · exact Or.inr (mem_rawKeys_modify _ _ _ _ (Or.inr h))

theorem storeOffsets_length (pictures : List picture) :
    ∀ m : QHash PhotoHelper,
      (storeOffsets pictures m).rawKeys.length ≤ m.rawKeys.length + pictures.length := by
  induction pictures with
  | nil => intro m; simp [storeOffsets]
  | cons p ps ih =>
    intro m
    unfold storeOffsets
    rw [List.foldl_cons]
    have h1 := ih (m.modify p.filename (fun h => { h with offsetSeconds := p.offset }))
    have h2 : (m.modify p.filename
        (fun h => { h with offsetSeconds := p.offset })).rawKeys.length ≤ m.rawKeys.length + 1 := by
      rw [rawKeys_modify]
      split_ifs <;> simp
    unfold storeOffsets at h1
    rw [List.length_cons]
    omega

theorem storeImages_keys (list : List SPixmap) :
    ∀ m : QHash PhotoHelper, (∀ px ∈ list, px.1.filename ∈ m.rawKeys) →
      (storeImages list m).rawKeys = m.rawKeys := by
  induction list with
  | nil => intro m _; rfl
  | cons px pxs ih =>
    intro m h
    unfold storeImages
    rw [List.foldl_cons]
    have hk : (m.modify px.1.filename (fun h => { h with image := px.2 })).rawKeys = m.rawKeys := by
      rw [rawKeys_modify, if_pos (h px (List.mem_cons_self _ _))]
    have h2 := ih (m.modify px.1.filename (fun h => { h with image := px.2 }))
      (fun q hq => by rw [hk]; exact h q (List.mem_cons_of_mem _ hq))
    unfold storeImages at h2
    rw [h2, hk]

theorem storeImages_null (list : List SPixmap) (k : String)
    (hall : ∀ px ∈ list, px.1.filename = k → px.2 = QImage.null) :
    ∀ m : QHash PhotoHelper,
      ((∃ px ∈ list, px.1.filename = k) ∨ (m.value k).image = QImage.null) →
      ((storeImages list m).value k).image = QImage.null := by
  induction list with
  | nil =>
    intro m h
    rcases h with ⟨px, hpx, _⟩ | h
    · simp at hpx
    · exact h
  | cons px pxs ih =>
    intro m h
    unfold storeImages
    rw [List.foldl_cons]
    have ih2 := ih (fun q hq => hall q (List.mem_cons_of_mem _ hq))
      (m.modify px.1.filename (fun h => { h with image := px.2 }))
    unfold storeImages at ih2
    apply ih2
    by_cases hk : px.1.filename = k
    · right
      rw [← hk, value_modify_same]
      exact hall px (List.mem_cons_self _ _) hk
    · rcases h with ⟨q, hq, hqk⟩ | h
      · rcases List.mem_cons.mp hq with hq | hq
        · rw [hq] at hqk; exact absurd hqk hk
        · exact Or.inl ⟨q, hq, hqk⟩
      · right
        rw [value_modify_other _ _ _ _ (Ne.symm hk)]
        exact h

/-! ## A picture that does not load -/

theorem SHashedImage_failed (env : Env) (q : picture) (log : List Event)
    (hlocal : env.isLocalFile q.filename = true →
      ∀ l, (env.load l (env.toLocalFile q.filename)).isNull = true)
    (hhash : ∀ l, (env.load l (env.fileFromHash l q.hash)).isNull = true) :
    SHashedImage env q log
      = { image := QImage.null, picture := q,
          log := (if env.isLocalFile q.filename = true then
              log ++ [Event.load (env.toLocalFile q.filename)] else log) ++
            [Event.load (env.fileFromHash
                (if env.isLocalFile q.filename = true then
                  log ++ [Event.load (env.toLocalFile q.filename)] else log) q.hash),
              Event.runLoadPicuture q] } := by
  by_cases hl : env.isLocalFile q.filename = true
  · have h1 := isNull_eq_true (hlocal hl log)
    have h2 := isNull_eq_true (hhash (log ++ [Event.load (env.toLocalFile q.filename)]))
    simp [SHashedImage, hl, h1, h2, QImage.isNull]
  · have h2 := isNull_eq_true (hhash log)
    simp [SHashedImage, hl, h2, QImage.isNull]

theorem scaleImages_failed (env : Env) (q : picture) (cache : QHash QImage) (log : List Event)
    (hmiss : cacheServes cache q.filename = false)
    (hlocal : env.isLocalFile q.filename = true →
      ∀ l, (env.load l (env.toLocalFile q.filename)).isNull = true)
    (hhash : ∀ l, (env.load l (env.fileFromHash l q.hash)).isNull = true) :
    scaleImages env q cache log
      = { ret := (q, QImage.null), cache := cache.insert q.filename QImage.null,
          log := (if env.isLocalFile q.filename = true then
              log ++ [Event.load (env.toLocalFile q.filename)] else log) ++
            [Event.load (env.fileFromHash
                (if env.isLocalFile q.filename = true then
                  log ++ [Event.load (env.toLocalFile q.filename)] else log) q.hash),
              Event.runLoadPicuture q] } := by
  rw [scaleImages_miss env q cache log hmiss, SHashedImage_failed env q log hlocal hhash]
  simp [QImage.isNull]

theorem blockingMapped_failed (env : Env) (f : String)
    (hlocal : env.isLocalFile f = true → ∀ l, (env.load l (env.toLocalFile f)).isNull = true)
    (pictures : List picture) :
    ∀ (cache : QHash QImage) (log : List Event), cacheServes cache f = false →
      (∀ q ∈ pictures, q.filename = f →
        ∀ l, (env.load l (env.fileFromHash l q.hash)).isNull = true) →
      ∀ px ∈ (blockingMapped env pictures cache log).1, px.1.filename = f →
        px.2 = QImage.null := by
  induction pictures with
  | nil => intro cache log _ _ px hpx; simp [blockingMapped] at hpx
  | cons q qs ih =>
    intro cache log hmiss hhash px hpx hname
    simp only [blockingMapped, List.mem_cons] at hpx
    by_cases hq : q.filename = f
    · have hmiss2 : cacheServes cache q.filename = false := by rw [hq]; exact hmiss
      have hlocal2 : env.isLocalFile q.filename = true →
          ∀ l, (env.load l (env.toLocalFile q.filename)).isNull = true := by rw [hq]; exact hlocal
      have hres := scaleImages_failed env q cache log hmiss2 hlocal2
        (hhash q (List.mem_cons_self _ _) hq)
      rcases hpx with hpx | hpx
      · rw [hpx, hres]
      · have hnext : cacheServes (scaleImages env q cache log).cache f = false := by
          rw [hres, ← hq]
          unfold cacheServes
          rw [value_insert_same]
          simp [QImage.isNull]
        exact ih _ _ hnext (fun r hr => hhash r (List.mem_cons_of_mem _ hr)) px hpx hname
    · rcases hpx with hpx | hpx
      · rw [hpx, (scaleImages_filename env q cache log).1] at hname
        exact absurd hname hq
      · exact ih _ _ (scaleImages_keeps_unserved env q cache log f hmiss hq)
          (fun r hr => hhash r (List.mem_cons_of_mem _ hr)) px hpx hname

/-! ## The rows of a picture that does not load -/

theorem blockingMapped_has_name (env : Env) (pictures : List picture) (cache : QHash QImage)
    (log : List Event) (k : String) :
    (∃ px ∈ (blockingMapped env pictures cache log).1, px.1.filename = k) ↔
      k ∈ pictures.map (fun p => p.filename) := by
  rw [← blockingMapped_filenames env pictures cache log]
  simp only [List.mem_map]

theorem shown_rawKeys (env : Env) (pictures : List picture) (cache : QHash QImage)
    (log : List Event) :
    (storeImages (blockingMapped env pictures cache log).1
        (storeOffsets pictures QHash.empty)).rawKeys
      = (storeOffsets pictures QHash.empty).rawKeys := by
  apply storeImages_keys
  intro px hpx
  apply storeOffsets_mem
  left
  exact (blockingMapped_has_name env pictures cache log px.1.filename).mp ⟨px, hpx, rfl⟩

/-- C3, as stated, fails: `gone.jpg` with the unregistered hash `00` loads
neither from its file nor from its hash, yet once the cache holds a thumbnail
for that name (from a picture of another dive whose hash is registered)
`scaleImages` answers it with that non-null image, and the model shows that
image for it; and with an empty dive table the picture is not counted. -/
theorem failed_load_served_from_cache :
    (∀ log : List Event, (SHashedImage sampleEnv picGone log).image = QImage.null) ∧
      (scaleImages sampleEnv picGone
          (scaleImages sampleEnv picGoneHashed QHash.empty []).cache []).ret
        = (picGone, QImage.pixels 48 96 "b") ∧
      data sampleEnv
          (updateDivePictures sampleEnv
            { updateDivePictures sampleEnv (freshWorld [picGoneHashed]) with
              displayed_dive := ⟨[picGone]⟩ })
          ⟨0, 0, true⟩ Qt.DecorationRole
        = some (QVariant.ofImage (QImage.pixels 48 96 "b")) ∧
      rowCount (updateDivePictures sampleEnv { freshWorld [picGone] with dive_table_nr := 0 })
        = 0 := by
  refine ⟨fun log => ?_, by decide, by decide, by decide⟩
  rw [SHashedImage_failed sampleEnv picGone log (fun _ _ => rfl) (fun _ => rfl)]

/-- C3, amended: let a picture load neither from its local file nor from the
file of its hash. When the thumbnail cache holds no non-null image for its
file name, `scaleImages` returns the pair of that picture and the null image
and only schedules the download. When the picture is in the displayed dive of
a non-empty dive table, `updateDivePictures` counts it in `rowCount`; and when
the cache does not serve the name and no picture of the displayed dive with
that name has a loadable hash, the image stored for the name is null, and the
name has a row below `rowCount` whose decoration is the null image. -/
theorem failed_load_shows_null (env : Env) (w : World) (p : picture)
    (hnr : w.dive_table_nr ≠ 0)
    (hp : p ∈ w.displayed_dive.picture_list)
    (hlocal : env.isLocalFile p.filename = true →
      ∀ l, (env.load l (env.toLocalFile p.filename)).isNull = true)
    (hhash : ∀ q ∈ w.displayed_dive.picture_list, q.filename = p.filename →
      ∀ l, (env.load l (env.fileFromHash l q.hash)).isNull = true)
    (hcache : cacheServes w.cache p.filename = false)
    (hkeys : ∀ l, (env.keyOrder l).Perm l) :
    (∀ (cache : QHash QImage) (log : List Event), cacheServes cache p.filename = false →
        (scaleImages env p cache log).ret = (p, QImage.null) ∧
          (scaleImages env p cache log).log
            = (if env.isLocalFile p.filename = true then
                log ++ [Event.load (env.toLocalFile p.filename)] else log) ++
              [Event.load (env.fileFromHash
                  (if env.isLocalFile p.filename = true then
                    log ++ [Event.load (env.toLocalFile p.filename)] else log) p.hash),
                Event.runLoadPicuture p]) ∧
      rowCount (updateDivePictures env w) = dive_get_picture_count w.displayed_dive ∧
      ((updateDivePictures env w).stringPixmapCache.value p.filename).image = QImage.null ∧
      ∃ row : Int, 0 ≤ row ∧ row < rowCount (updateDivePictures env w) ∧
        data env (updateDivePictures env w) ⟨row, 0, true⟩ Qt.ToolTipRole
          = some (QVariant.ofString p.filename) ∧
        data env (updateDivePictures env w) ⟨row, 0, true⟩ Qt.DecorationRole
          = some (QVariant.ofImage QImage.null) := by
  have hcount : dive_get_picture_count w.displayed_dive ≠ 0 := by
    unfold dive_get_picture_count
    have hpos : 0 < w.displayed_dive.picture_list.length := List.length_pos_of_mem hp
    omega
  have hrows : rowCount (updateDivePictures env w) = dive_get_picture_count w.displayed_dive := by
    unfold rowCount
    rw [updateDivePictures_numberOfPictures, if_neg hnr]
  have hname : p.filename ∈ w.displayed_dive.picture_list.map (fun q => q.filename) :=
    List.mem_map.mpr ⟨p, hp, rfl⟩
  have hshown := updateDivePictures_shown env w hnr hcount
  have himage :
      ((updateDivePictures env w).stringPixmapCache.value p.filename).image = QImage.null := by
    rw [hshown]
    apply storeImages_null
    · exact blockingMapped_failed env p.filename hlocal _ _ _ hcache hhash
    · left
      exact (blockingMapped_has_name env _ _ _ p.filename).mpr hname
  have hraw : (updateDivePictures env w).stringPixmapCache.rawKeys
      = (storeOffsets w.displayed_dive.picture_list QHash.empty).rawKeys := by
    rw [hshown]
    exact shown_rawKeys env _ _ _
  have hmem : p.filename ∈ keys env (updateDivePictures env w) := by
    unfold keys
    rw [(hkeys _).mem_iff, hraw]
    exact storeOffsets_mem _ _ _ (Or.inl hname)
  have hlen : ((keys env (updateDivePictures env w)).length : Int)
      ≤ dive_get_picture_count w.displayed_dive := by
    unfold keys dive_get_picture_count
    rw [(hkeys _).length_eq, hraw]
    have h := storeOffsets_length w.displayed_dive.picture_list QHash.empty
    have h0 : (QHash.empty : QHash PhotoHelper).rawKeys.length = 0 := rfl
    omega
  refine ⟨?_, hrows, himage, ?_⟩
  · intro cache log hmiss
    rw [scaleImages_failed env p cache log hmiss hlocal (hhash p hp rfl)]
    exact ⟨rfl, rfl⟩
  · obtain ⟨n, hn⟩ := List.mem_iff_getElem?.mp hmem
    obtain ⟨hlt, _⟩ := List.getElem?_eq_some.mp hn
    have hvalid : (QModelIndex.mk (n : Int) 0 true).isValid = true := by
      simp [QModelIndex.isValid]
    refine ⟨(n : Int), Int.ofNat_nonneg n, ?_, ?_, ?_⟩
    · rw [hrows]
      have : (n : Int) < ((keys env (updateDivePictures env w)).length : Int) := by
        exact_mod_cast hlt
      omega
    · rw [data_eq, if_pos hvalid]
      simp only [Int.toNat_ofNat, hn, Option.map_some']
      rfl
    · rw [data_eq, if_pos hvalid]
      simp only [Int.toNat_ofNat, hn, Option.map_some']
      unfold roleTable
      rw [himage]
      rfl

/-- In the sample dive the picture `gone.jpg` is counted and shown with a null
image. -/
theorem failed_load_shows_null_witness :
    rowCount (updateDivePictures sampleEnv (freshWorld [picA, picGone])) = 2 ∧
      ((updateDivePictures sampleEnv (freshWorld [picA, picGone])).stringPixmapCache.value
        "gone.jpg").image = QImage.null :=
  have h := failed_load_shows_null sampleEnv (freshWorld [picA, picGone]) picGone
    (by decide) (by decide) (fun _ _ => rfl)
    (fun q hq hname l => by
      have hq2 : q = picA ∨ q = picGone := by simpa [freshWorld] using hq
      rcases hq2 with rfl | rfl
      · exact absurd hname (by decide)
      · rfl)
    (by decide) (fun l => List.Perm.refl l)
  ⟨h.2.1, h.2.2.1⟩

end Subsurface
